import Mathlib

/-!
# Verification of the ellipsis-macros core

Shallow embedding of `src/lib.rs` (the `declare_id` / `declare_pda` proc
macros) and of the external primitives it calls (base58 decoding, the
PDA bump search).  Pure functions of the source become Lean functions;
`syn::Error::new_spanned(lit, msg)` becomes an error constructor carrying
the literal the error is attached to.  The cryptographic hash and the
Ed25519 curve-membership test are abstracted as explicit function
parameters, since their byte-level content is outside the scope of the
claims.
-/

/-- Errors of the macro core.  Each constructor records the message kind of
`src/lib.rs` and, where the source attaches a span, the literal the error
is spanned to:
`invalidEncoding lit` is a "failed to decode base58 string" error at `lit`;
`wrongLength lit n` is "pubkey array is not 32 bytes long: len=n" at `lit`;
`mismatch lit` is "provided PDA does not match the computed PDA" at `lit`;
`unexpectedToken` is the trailing-token error of `parse_id`;
`exhausted` models the panic of `find_program_address` when the bump
search fails. -/
inductive MacroError where
  | invalidEncoding (lit : String)
  | wrongLength (lit : String) (len : Nat)
  | mismatch (lit : String)
  | unexpectedToken
  | exhausted
deriving DecidableEq

/-- The 58-character base58 alphabet (no 0, O, I, l). -/
def base58Alphabet : List Char :=
  "123456789ABCDEFGHJKLMNPQRSTUVWXYZabcdefghijkmnopqrstuvwxyz".data

/-- The digit value of a character, `none` when it is outside the
base58 alphabet. -/
def base58DigitOf (c : Char) : Option Nat :=
  base58Alphabet.findIdx? (fun a => a == c)

/-- The value of a big-endian digit string in base `b`. -/
def digitsToNat (b : Nat) (ds : List Nat) : Nat :=
  ds.foldl (fun a d => a * b + d) 0

/-- Big-endian base-`b` digits of `n`, fuel-bounded; `fuel ≥ n` is enough
for `b ≥ 2`. -/
def natDigitsBEAux (b : Nat) : Nat → Nat → List Nat
  | 0, _ => []
  | _, 0 => []
  | fuel + 1, n + 1 => natDigitsBEAux b fuel ((n + 1) / b) ++ [(n + 1) % b]

/-- Big-endian base-`b` digits of `n` (no leading zero digit; `[]` for 0). -/
def natDigitsBE (b n : Nat) : List Nat :=
  natDigitsBEAux b n n

/-- Digit values of a character string, `none` if any character is outside
the base58 alphabet. -/
def decodeDigits : List Char → Option (List Nat)
  | [] => some []
  | c :: cs =>
    match base58DigitOf c, decodeDigits cs with
    | some d, some ds => some (d :: ds)
    | _, _ => none

/-- Modelled from the spec: the base58 decode of the external `bs58` crate
(`bs58::decode(..).into_vec()`), which is not under `src/`.  Standard
big-integer base58 decoding: each leading `1` character yields one leading
zero byte, the remaining value is written in big-endian bytes. -/
def bs58Decode (s : String) : Option (List Nat) :=
  match decodeDigits s.data with
  | none => none
  | some ds =>
    some (List.replicate (ds.takeWhile (fun d => d == 0)).length 0
      ++ natDigitsBE 256 (digitsToNat 58 ds))

/-- Modelled from the spec: standard base58 encoding (the inverse direction
of the Key Decoder, §8 round-trip property): one `1` character per leading
zero byte, then the big-endian base58 digits of the value. -/
def bs58Encode (bs : List Nat) : List Char :=
  List.replicate (bs.takeWhile (fun d => d == 0)).length '1'
    ++ (natDigitsBE 58 (digitsToNat 256 bs)).map (fun d => base58Alphabet.getD d '1')

/-- Embedding of `parse_pubkey` (src/lib.rs lines 42-58): base58-decode the
literal, then require exactly 32 bytes; errors are spanned to the literal. -/
def parse_pubkey (id_literal : String) : Except MacroError (List Nat) :=
  match bs58Decode id_literal with
  | none => .error (.invalidEncoding id_literal)
  | some id_vec =>
    if id_vec.length = 32 then .ok id_vec
    else .error (.wrongLength id_literal id_vec.length)

/-- Modelled from the spec: `Pubkey::from_str` of the external
`solana_program` crate, which is not under `src/`.  It succeeds exactly when
the string base58-decodes to 32 bytes; `parse_pda` discards its error
detail. -/
def pubkeyFromStr (s : String) : Option (List Nat) :=
  match bs58Decode s with
  | none => none
  | some v => if v.length = 32 then some v else none

/-- Bytes of a string literal (the seeds in the claims are ASCII, where
this agrees with the UTF-8 bytes the source takes). -/
def strBytes (s : String) : List Nat :=
  s.data.map Char.toNat

/-- Modelled from the spec: the fixed domain-separation suffix of §4.2
step 2 ("ProgramDerivedAddress" in the reference scheme). -/
def pdaMarker : List Nat :=
  strBytes ("ProgramDerivedAddress")

/-- Error of the Address Deriver: its only failure is exhaustion of the
256-value bump range. -/
inductive DeriveError where
  | derivationExhausted
deriving DecidableEq

/-- The candidate hash for one bump value: the digest of
seed ++ bump ++ program id ++ domain-separation suffix (§4.2 step 2-3),
with the digest function `hash` abstract. -/
def candidate (hash : List Nat → List Nat) (programId seed : List Nat)
    (bump : Nat) : List Nat :=
  hash (seed ++ [bump] ++ programId ++ pdaMarker)

/-- Modelled from the spec: the bump search of
`Pubkey::find_program_address` (external `solana_program` crate, not under
`src/`), searching downward from the given bump to 0 and accepting the
first off-curve candidate (§4.2 steps 1-5). -/
def deriveFrom (hash : List Nat → List Nat) (onCurve : List Nat → Bool)
    (programId seed : List Nat) : Nat → Except DeriveError (List Nat × Nat)
  | 0 =>
    if onCurve (candidate hash programId seed 0) then .error .derivationExhausted
    else .ok (candidate hash programId seed 0, 0)
  | b + 1 =>
    if onCurve (candidate hash programId seed (b + 1)) then
      deriveFrom hash onCurve programId seed b
    else .ok (candidate hash programId seed (b + 1), b + 1)

/-- Modelled from the spec: the Address Deriver `derive` (§4.2) — the bump
search started at 255. -/
def derive (hash : List Nat → List Nat) (onCurve : List Nat → Bool)
    (programId seed : List Nat) : Except DeriveError (List Nat × Nat) :=
  deriveFrom hash onCurve programId seed 255

/-- Embedding of `parse_pda` (src/lib.rs lines 60-87): decode the claimed
address and the program id via `Pubkey::from_str` (each failure spanned, as
in the source, to `id_literal` with the "failed to decode base58 string"
message), run the derivation, reject on mismatch, then re-decode the
claimed literal via `parse_pubkey` for the emitted bytes and pair them with
the recomputed bump. -/
def parse_pda (hash : List Nat → List Nat) (onCurve : List Nat → Bool)
    (id_literal program_id seed : String) :
    Except MacroError (List Nat × Nat) :=
  match pubkeyFromStr id_literal with
  | none => .error (.invalidEncoding id_literal)
  | some pda_key =>
    match pubkeyFromStr program_id with
    | none => .error (.invalidEncoding id_literal)
    | some pid =>
      match derive hash onCurve pid (strBytes seed) with
      | .error _ => .error .exhausted
      | .ok (computed_key, bump_seed) =>
        if pda_key = computed_key then
          match parse_pubkey id_literal with
          | .error e => .error e
          | .ok bs => .ok (bs, bump_seed)
        else .error (.mismatch id_literal)

/-- Input of `parse_id`: either a string literal or any other expression
(held abstract as its token text). -/
inductive IdArg where
  | litStr (s : String)
  | exprArg (e : String)
deriving DecidableEq

/-- Output of `parse_id`: either the decoded 32 bytes of a string literal,
or the input expression passed through verbatim. -/
inductive IdOutput where
  | pubkeyBytes (bs : List Nat)
  | verbatim (e : String)
deriving DecidableEq

/-- Embedding of `parse_id` (src/lib.rs lines 26-40): a string literal goes
through `parse_pubkey`, any other expression is quoted verbatim; then a
non-empty remainder of the input (`trailing`) is an "unexpected token"
error. -/
def parse_id (arg : IdArg) (trailing : Bool) : Except MacroError IdOutput :=
  match arg with
  | .litStr s =>
    match parse_pubkey s with
    | .error e => .error e
    | .ok bs => if trailing then .error .unexpectedToken else .ok (.pubkeyBytes bs)
  | .exprArg e => if trailing then .error .unexpectedToken else .ok (.verbatim e)

example : bs58Decode ("1") = some [0] := rfl

example : parse_pubkey ("1") = .error (.wrongLength ("1") 1) := rfl

example : bs58Decode ("2g") = some [97] := rfl

example : pubkeyFromStr ("11111111111111111111111111111111") =
    some (List.replicate 32 0) := rfl

/-! ## The bump search -/

theorem deriveFrom_ok (hash : List Nat → List Nat) (onCurve : List Nat → Bool)
    (programId seed : List Nat) :
    ∀ bump a k, deriveFrom hash onCurve programId seed bump = .ok (a, k) →
      k ≤ bump ∧ a = candidate hash programId seed k ∧
      onCurve (candidate hash programId seed k) = false ∧
      ∀ j, k < j → j ≤ bump → onCurve (candidate hash programId seed j) = true := by
  intro bump
  induction bump with
  | zero =>
    intro a k h
    by_cases hc : onCurve (candidate hash programId seed 0)
    · simp [deriveFrom, hc] at h
    · simp [deriveFrom, hc] at h
      obtain ⟨ha, hk⟩ := h
      subst hk
      exact ⟨Nat.le_refl 0, ha.symm, Bool.eq_false_iff.mpr hc,
        fun j hj1 hj2 => by omega⟩
  | succ b ih =>
    intro a k h
    by_cases hc : onCurve (candidate hash programId seed (b + 1))
    · simp only [deriveFrom, hc, if_pos] at h
      obtain ⟨h1, h2, h3, h4⟩ := ih a k h
      refine ⟨Nat.le_succ_of_le h1, h2, h3, ?_⟩
      intro j hj1 hj2
      rcases Nat.lt_or_ge j (b + 1) with hlt | hge
      · exact h4 j hj1 (by omega)
      · have hj : j = b + 1 := by omega
        rw [hj]; exact hc
    · simp [deriveFrom, hc] at h
      obtain ⟨ha, hk⟩ := h
      subst hk
      exact ⟨Nat.le_refl _, ha.symm, Bool.eq_false_iff.mpr hc,
        fun j hj1 hj2 => by omega⟩

theorem deriveFrom_error (hash : List Nat → List Nat) (onCurve : List Nat → Bool)
    (programId seed : List Nat) :
    ∀ bump, (deriveFrom hash onCurve programId seed bump = .error .derivationExhausted ↔
      ∀ j, j ≤ bump → onCurve (candidate hash programId seed j) = true) := by
  intro bump
  induction bump with
  | zero =>
    by_cases hc : onCurve (candidate hash programId seed 0)
    · simp [deriveFrom, hc]
    · simp [deriveFrom, hc]
  | succ b ih =>
    by_cases hc : onCurve (candidate hash programId seed (b + 1))
    · simp only [deriveFrom, hc, if_pos]
      rw [ih]
      constructor
      · intro h j hj
        rcases Nat.lt_or_ge j (b + 1) with hlt | hge
        · exact h j (by omega)
        · have hj1 : j = b + 1 := by omega
          rw [hj1]; exact hc
      · intro h j hj
        exact h j (by omega)
    · simp [deriveFrom, hc]
      exact ⟨b + 1, Nat.le_refl _, Bool.eq_false_iff.mpr hc⟩

/-- A hash stub for concrete instantiations: every input digests to
thirty-two 7 bytes. -/
def hashConst7 : List Nat → List Nat :=
  fun _ => List.replicate 32 7

/-- A hash stub for concrete instantiations: every input digests to
thirty-two zero bytes. -/
def hashConst0 : List Nat → List Nat :=
  fun _ => List.replicate 32 0

/-- A curve test stub under which every candidate is off-curve. -/
def onCurveNever : List Nat → Bool :=
  fun _ => false

/-- A curve test stub under which every candidate is on-curve. -/
def onCurveAlways : List Nat → Bool :=
  fun _ => true

/-- The all-zero 32-byte key (decoded from thirty-two 1 characters). -/
def zeroKey : List Nat :=
  List.replicate 32 0

/-- The seed bytes of the spec's concrete scenario (§8). -/
def seedTest : List Nat :=
  strBytes ("test")

/-- Claim C1: for every program identity and seed, `derive` returns
`(address, bump)` where the address is the candidate hash at `bump`, that
candidate is off-curve, every strictly greater bump in `[0, 255]` has an
on-curve candidate (so the returned bump is the highest that works, the
candidates being searched downward from 255), and `derive` fails with
`DerivationExhausted` exactly when all 256 candidates are on-curve. -/
theorem C1_derive_spec (hash : List Nat → List Nat) (onCurve : List Nat → Bool)
    (programId seed : List Nat) :
    (∀ a k, derive hash onCurve programId seed = .ok (a, k) →
      k ≤ 255 ∧ a = candidate hash programId seed k ∧
      onCurve (candidate hash programId seed k) = false ∧
      ∀ j, k < j → j ≤ 255 → onCurve (candidate hash programId seed j) = true) ∧
    (derive hash onCurve programId seed = .error .derivationExhausted ↔
      ∀ j, j ≤ 255 → onCurve (candidate hash programId seed j) = true) :=
  ⟨fun a k h => deriveFrom_ok hash onCurve programId seed 255 a k h,
   deriveFrom_error hash onCurve programId seed 255⟩

/-- Witness for C1: with a curve test that accepts (off-curve) every
candidate, `derive` stops at bump 255 and the characterisation applies. -/
theorem C1_derive_spec_witness :
    List.replicate 32 7 = candidate hashConst7 zeroKey seedTest 255 ∧
    onCurveNever (candidate hashConst7 zeroKey seedTest 255) = false := by
  have h := (C1_derive_spec hashConst7 onCurveNever zeroKey seedTest).1
    (List.replicate 32 7) 255 rfl
  exact ⟨h.2.1, h.2.2.1⟩

/-- Claim C9: `derive` is deterministic — two calls on equal program
identities and equal seeds return identical results. -/
theorem C9_derive_deterministic (hash : List Nat → List Nat)
    (onCurve : List Nat → Bool) (p1 p2 s1 s2 : List Nat)
    (hp : p1 = p2) (hs : s1 = s2) :
    derive hash onCurve p1 s1 = derive hash onCurve p2 s2 := by
  rw [hp, hs]

/-- Witness for C9 at a concrete instantiation. -/
theorem C9_derive_deterministic_witness :
    derive hashConst7 onCurveNever zeroKey seedTest =
      derive hashConst7 onCurveNever zeroKey seedTest :=
  C9_derive_deterministic hashConst7 onCurveNever zeroKey zeroKey seedTest
    seedTest rfl rfl

/-! ## The validation path -/

theorem pubkeyFromStr_eq_ok (s : String) (v : List Nat)
    (h : pubkeyFromStr s = some v) : parse_pubkey s = .ok v := by
  unfold pubkeyFromStr at h
  unfold parse_pubkey
  cases hd : bs58Decode s with
  | none => rw [hd] at h; exact absurd h (by simp)
  | some w =>
    rw [hd] at h
    dsimp only at h ⊢
    by_cases hl : w.length = 32
    · rw [if_pos hl] at h ⊢
      simp only [Option.some.injEq] at h
      rw [h]
    · rw [if_neg hl] at h
      exact absurd h (by simp)

/-- Claim C2: when both literals decode to 32-byte keys, the validation
path fails with the DerivationMismatch error exactly when the decoded
claimed address differs from the address computed by `derive` on the
decoded program identity and the seed; in particular a mismatching claimed
address is never replaced by the computed one (the call returns the error,
never a success). -/
theorem C2_parse_pda_mismatch (hash : List Nat → List Nat)
    (onCurve : List Nat → Bool) (idl pidl seedl : String) (ck pk : List Nat)
    (hid : pubkeyFromStr idl = some ck) (hpid : pubkeyFromStr pidl = some pk) :
    (parse_pda hash onCurve idl pidl seedl = .error (.mismatch idl) ↔
      ∃ a b, derive hash onCurve pk (strBytes seedl) = .ok (a, b) ∧ ck ≠ a) := by
  have hpk := pubkeyFromStr_eq_ok idl ck hid
  unfold parse_pda
  rw [hid, hpid]
  dsimp only
  cases hd : derive hash onCurve pk (strBytes seedl) with
  | error e =>
    constructor
    · intro h; exact absurd h (by simp)
    · rintro ⟨a, b, hab, -⟩; exact absurd hab (by simp)
  | ok r =>
    obtain ⟨a, b⟩ := r
    dsimp only
    by_cases he : ck = a
    · rw [if_pos he, hpk]
      constructor
      · intro h; exact absurd h (by simp)
      · rintro ⟨a2, b2, hab, hne⟩
        simp only [Except.ok.injEq, Prod.mk.injEq] at hab
        exact absurd (he.trans hab.1) hne
    · rw [if_neg he]
      exact ⟨fun _ => ⟨a, b, rfl, he⟩, fun _ => rfl⟩

/-- Witness for C2: the all-zero claimed key against a derivation whose
digest is thirty-two 7 bytes is rejected with the mismatch error. -/
theorem C2_parse_pda_mismatch_witness :
    parse_pda hashConst7 onCurveNever ("11111111111111111111111111111111")
      ("11111111111111111111111111111111") ("test") =
      .error (.mismatch ("11111111111111111111111111111111")) :=
  (C2_parse_pda_mismatch hashConst7 onCurveNever
      ("11111111111111111111111111111111")
      ("11111111111111111111111111111111") ("test") zeroKey zeroKey
      rfl rfl).mpr
    ⟨List.replicate 32 7, 255, rfl, by decide⟩

/-- Claim C5: a successful validation emits the bytes obtained by decoding
the claimed literal through `parse_pubkey` (not the recomputed address
bytes) together with the bump returned by `derive` on the decoded program
identity and the seed. -/
theorem C5_parse_pda_emission (hash : List Nat → List Nat)
    (onCurve : List Nat → Bool) (idl pidl seedl : String)
    (bs : List Nat) (bump : Nat)
    (h : parse_pda hash onCurve idl pidl seedl = .ok (bs, bump)) :
    parse_pubkey idl = .ok bs ∧
    ∃ pk a, pubkeyFromStr pidl = some pk ∧
      derive hash onCurve pk (strBytes seedl) = .ok (a, bump) := by
  unfold parse_pda at h
  cases h1 : pubkeyFromStr idl with
  | none => rw [h1] at h; exact absurd h (by simp)
  | some ck =>
    rw [h1] at h
    dsimp only at h
    cases h2 : pubkeyFromStr pidl with
    | none => rw [h2] at h; exact absurd h (by simp)
    | some pk =>
      rw [h2] at h
      dsimp only at h
      cases h3 : derive hash onCurve pk (strBytes seedl) with
      | error e => rw [h3] at h; exact absurd h (by simp)
      | ok r =>
        obtain ⟨a, b⟩ := r
        rw [h3] at h
        dsimp only at h
        by_cases he : ck = a
        · rw [if_pos he] at h
          cases h4 : parse_pubkey idl with
          | error e => rw [h4] at h; exact absurd h (by simp)
          | ok bs2 =>
            rw [h4] at h
            dsimp only at h
            simp only [Except.ok.injEq, Prod.mk.injEq] at h
            obtain ⟨hb1, hb2⟩ := h
            subst hb1
            subst hb2
            exact ⟨rfl, pk, a, rfl, h3⟩
        · rw [if_neg he] at h
          exact absurd h (by simp)

/-- Witness for C5 on a successful concrete validation: the all-zero claimed
key, the all-zero digest and a curve test accepting every candidate. -/
theorem C5_parse_pda_emission_witness :
    parse_pubkey ("11111111111111111111111111111111") = .ok zeroKey ∧
    ∃ pk a, pubkeyFromStr ("11111111111111111111111111111111") = some pk ∧
      derive hashConst0 onCurveNever pk (strBytes ("test")) = .ok (a, 255) :=
  C5_parse_pda_emission hashConst0 onCurveNever
    ("11111111111111111111111111111111")
    ("11111111111111111111111111111111") ("test") zeroKey 255 rfl

/-- Claim C6 at its failing input: with a decodable claimed-address literal
and an undecodable program-identity literal, the decode error of the
validation path is attached to the claimed-address literal, not to the
failing program-identity literal — `src/lib.rs` line 68 spans `id_literal`
where the program-identity literal fails. -/
theorem C6_error_attached_to_wrong_literal :
    parse_pda hashConst0 onCurveNever ("11111111111111111111111111111111")
      ("O") ("test") =
      .error (.invalidEncoding ("11111111111111111111111111111111")) := rfl

/-- Claim C4 is refuted at the literal "1": in the validation path the
wrong-length claimed literal yields the collapsed "failed to decode base58
string" error with no length, while the decode-only path reports
WrongLength with the actual length 1 — the two paths are not the same
decoder path. -/
theorem C4_counterexample :
    parse_pda hashConst0 onCurveNever ("1")
      ("11111111111111111111111111111111") ("test") =
      .error (.invalidEncoding ("1")) ∧
    parse_pubkey ("1") = .error (.wrongLength ("1") 1) :=
  ⟨rfl, rfl⟩

/-- Claim C4 (amended): in the validation path both literals are decoded by
`Pubkey::from_str`, and any decode failure — malformed base58 or wrong
length alike — is propagated to the caller as the single collapsed
"failed to decode base58 string" error, which does not distinguish
InvalidEncoding from WrongLength and reports no length. -/
theorem C4_decode_collapsed (hash : List Nat → List Nat)
    (onCurve : List Nat → Bool) (idl pidl seedl : String) :
    (pubkeyFromStr idl = none →
      parse_pda hash onCurve idl pidl seedl = .error (.invalidEncoding idl)) ∧
    (∀ ck, pubkeyFromStr idl = some ck → pubkeyFromStr pidl = none →
      parse_pda hash onCurve idl pidl seedl = .error (.invalidEncoding idl)) := by
  constructor
  · intro h
    unfold parse_pda
    rw [h]
  · intro ck h1 h2
    unfold parse_pda
    rw [h1, h2]

/-- Witness for C4 (amended) at the wrong-length literal "1". -/
theorem C4_decode_collapsed_witness :
    parse_pda hashConst7 onCurveNever ("1") ("1") ("test") =
      .error (.invalidEncoding ("1")) :=
  (C4_decode_collapsed hashConst7 onCurveNever ("1") ("1") ("test")).1 rfl

/-! ## The declare_id entry point and the decoder errors -/

/-- Claim C10: a non-string-literal input to `declare_id` is passed through
verbatim as the identity — no base58 decode and no 32-byte check touch it,
only the trailing-token check applies — while a string-literal input goes
through `parse_pubkey`. -/
theorem C10_parse_id_verbatim :
    (∀ e trailing, parse_id (.exprArg e) trailing =
      if trailing then .error .unexpectedToken else .ok (.verbatim e)) ∧
    (∀ s, parse_id (.litStr s) false =
      (parse_pubkey s).map IdOutput.pubkeyBytes) := by
  constructor
  · intro e trailing
    rfl
  · intro s
    cases hp : parse_pubkey s with
    | error er => simp [parse_id, hp, Except.map]
    | ok bs => simp [parse_id, hp, Except.map]

theorem decodeDigits_none (cs : List Char)
    (h : ∃ c ∈ cs, base58DigitOf c = none) : decodeDigits cs = none := by
  induction cs with
  | nil => simp at h
  | cons c cs ih =>
    obtain ⟨d, hd, hnone⟩ := h
    rcases List.mem_cons.mp hd with rfl | hmem
    · unfold decodeDigits
      rw [hnone]
    · have hcs := ih ⟨d, hmem, hnone⟩
      unfold decodeDigits
      rw [hcs]
      cases base58DigitOf c <;> rfl

/-- Claim C8: a string containing any character outside the base58
alphabet — in particular the excluded character O — fails to decode, and
`parse_pubkey` reports the invalid-encoding error on that literal. -/
theorem C8_invalid_char (s : String)
    (h : 'O' ∈ s.data ∨ ∃ c ∈ s.data, base58DigitOf c = none) :
    parse_pubkey s = .error (.invalidEncoding s) := by
  have hex : ∃ c ∈ s.data, base58DigitOf c = none := by
    rcases h with hO | hex
    · exact ⟨'O', hO, by decide⟩
    · exact hex
  unfold parse_pubkey bs58Decode
  rw [decodeDigits_none s.data hex]

/-- Witness for C8 at a string containing the character O. -/
theorem C8_invalid_char_witness :
    parse_pubkey ("xO") = .error (.invalidEncoding ("xO")) :=
  C8_invalid_char ("xO") (Or.inl (by decide))

/-- Claim C3: when base58 decoding succeeds with a byte count other than
32, `parse_pubkey` fails with the wrong-length error reporting the actual
decoded length. -/
theorem C3_wrong_length (s : String) (v : List Nat)
    (h1 : bs58Decode s = some v) (h2 : v.length ≠ 32) :
    parse_pubkey s = .error (.wrongLength s v.length) := by
  unfold parse_pubkey
  rw [h1]
  dsimp only
  rw [if_neg h2]

/-- Witness for C3: the string "1" decodes to the single zero byte and is
rejected with reported length 1. -/
theorem C3_wrong_length_witness :
    bs58Decode ("1") = some [0] ∧
    parse_pubkey ("1") = .error (.wrongLength ("1") 1) :=
  ⟨rfl, C3_wrong_length ("1") [0] rfl (by decide)⟩

/-! ## The base58 round trip -/

theorem digitsToNat_foldl (b : Nat) (ds : List Nat) :
    ∀ a : Nat, ds.foldl (fun x d => x * b + d) a =
      a * b ^ ds.length + Nat.ofDigits b ds.reverse := by
  induction ds with
  | nil =>
    intro a
    simp [Nat.ofDigits_nil]
  | cons d ds ih =>
    intro a
    rw [List.foldl_cons, ih (a * b + d), List.reverse_cons, Nat.ofDigits_append,
      Nat.ofDigits_singleton, List.length_cons, List.length_reverse]
    ring

theorem digitsToNat_eq_ofDigits (b : Nat) (ds : List Nat) :
    digitsToNat b ds = Nat.ofDigits b ds.reverse := by
  unfold digitsToNat
  rw [digitsToNat_foldl]
  simp

theorem natDigitsBEAux_eq (b : Nat) (hb : 2 ≤ b) :
    ∀ fuel n, n ≤ fuel → natDigitsBEAux b fuel n = (Nat.digits b n).reverse := by
  intro fuel
  induction fuel with
  | zero =>
    intro n hn
    have hn0 : n = 0 := by omega
    subst hn0
    simp [natDigitsBEAux]
  | succ f ih =>
    intro n hn
    cases n with
    | zero => simp [natDigitsBEAux]
    | succ m =>
      have hdiv : (m + 1) / b ≤ f := by
        have hself : (m + 1) / b < m + 1 :=
          Nat.div_lt_self (Nat.succ_pos m) (by omega : 1 < b)
        omega
      have hstep : natDigitsBEAux b (f + 1) (m + 1) =
          natDigitsBEAux b f ((m + 1) / b) ++ [(m + 1) % b] := rfl
      rw [hstep, ih ((m + 1) / b) hdiv,
        Nat.digits_def' (by omega : 1 < b) (Nat.succ_pos m), List.reverse_cons]

theorem natDigitsBE_eq (b n : Nat) (hb : 2 ≤ b) :
    natDigitsBE b n = (Nat.digits b n).reverse :=
  natDigitsBEAux_eq b hb n n (Nat.le_refl n)

theorem digitsToNat_natDigitsBE (b n : Nat) (hb : 2 ≤ b) :
    digitsToNat b (natDigitsBE b n) = n := by
  rw [natDigitsBE_eq b n hb, digitsToNat_eq_ofDigits, List.reverse_reverse,
    Nat.ofDigits_digits]

theorem natDigitsBE_digitsToNat (b : Nat) (hb : 2 ≤ b) (l : List Nat)
    (hlt : ∀ x ∈ l, x < b) (hhead : l.head? ≠ some 0) :
    natDigitsBE b (digitsToNat b l) = l := by
  have w1 : ∀ x ∈ l.reverse, x < b := fun x hx => hlt x (List.mem_reverse.mp hx)
  have w2 : ∀ h : l.reverse ≠ [], l.reverse.getLast h ≠ 0 := by
    intro hne hc
    have h1 := List.getLast?_eq_getLast l.reverse hne
    rw [hc, List.getLast?_reverse] at h1
    exact hhead h1
  rw [digitsToNat_eq_ofDigits, natDigitsBE_eq _ _ hb,
    Nat.digits_ofDigits b (by omega) l.reverse w1 w2, List.reverse_reverse]

theorem takeWhile_zeros (l : List Nat) :
    l.takeWhile (fun d => d == 0) =
      List.replicate (l.takeWhile (fun d => d == 0)).length 0 := by
  apply List.eq_replicate_iff.mpr
  refine ⟨rfl, ?_⟩
  intro x hx
  have hpx := List.mem_takeWhile_imp hx
  simpa using hpx

theorem digitsToNat_replicate_zero_append (b z : Nat) (t : List Nat) :
    digitsToNat b (List.replicate z 0 ++ t) = digitsToNat b t := by
  induction z with
  | zero => rfl
  | succ z ih =>
    rw [List.replicate_succ, List.cons_append]
    unfold digitsToNat at ih ⊢
    rw [List.foldl_cons]
    simpa using ih

theorem takeWhile_replicate_zero_append (z : Nat) (t : List Nat) :
    (List.replicate z 0 ++ t).takeWhile (fun d => d == 0) =
      List.replicate z 0 ++ t.takeWhile (fun d => d == 0) := by
  induction z with
  | zero => rfl
  | succ z ih =>
    rw [List.replicate_succ, List.cons_append,
      List.takeWhile_cons_of_pos (by rfl), ih, List.cons_append]

theorem takeWhile_natDigitsBE (b n : Nat) (hb : 2 ≤ b) :
    (natDigitsBE b n).takeWhile (fun d => d == 0) = [] := by
  rw [natDigitsBE_eq b n hb]
  rcases Nat.eq_zero_or_pos n with rfl | hn
  · simp
  · have hnz : n ≠ 0 := by omega
    have hne : Nat.digits b n ≠ [] := Nat.digits_ne_nil_iff_ne_zero.mpr hnz
    have hlast := Nat.getLast_digit_ne_zero b hnz
    cases hL : (Nat.digits b n).reverse with
    | nil => rfl
    | cons d t =>
      have h1 : (Nat.digits b n).reverse.head? = some d := by rw [hL]; rfl
      rw [List.head?_reverse] at h1
      have h2 := List.getLast?_eq_getLast (Nat.digits b n) hne
      rw [h2] at h1
      have hd : d ≠ 0 := by
        injection h1 with h1e
        rw [← h1e]
        exact hlast
      have hneg : ¬ ((d == 0) = true) := by simpa using hd
      exact List.takeWhile_cons_of_neg hneg

theorem base58DigitOf_getD : ∀ d, d < 58 →
    base58DigitOf (base58Alphabet.getD d '1') = some d := by decide

theorem decodeDigits_map_getD (ds : List Nat) (h : ∀ d ∈ ds, d < 58) :
    decodeDigits (ds.map (fun d => base58Alphabet.getD d '1')) = some ds := by
  induction ds with
  | nil => rfl
  | cons d ds ih =>
    rw [List.map_cons]
    unfold decodeDigits
    rw [base58DigitOf_getD d (h d (List.mem_cons_self d ds)),
      ih (fun x hx => h x (List.mem_cons_of_mem d hx))]

theorem decodeDigits_replicate_one (z : Nat) :
    decodeDigits (List.replicate z '1') = some (List.replicate z 0) := by
  induction z with
  | zero => rfl
  | succ z ih =>
    rw [List.replicate_succ, List.replicate_succ]
    unfold decodeDigits
    rw [ih]
    rfl

theorem decodeDigits_append (l1 l2 : List Char) (r1 r2 : List Nat)
    (h1 : decodeDigits l1 = some r1) (h2 : decodeDigits l2 = some r2) :
    decodeDigits (l1 ++ l2) = some (r1 ++ r2) := by
  induction l1 generalizing r1 with
  | nil =>
    simp only [decodeDigits] at h1
    injection h1 with h1e
    subst h1e
    simpa using h2
  | cons c l1 ih =>
    unfold decodeDigits at h1
    cases hc : base58DigitOf c with
    | none => rw [hc] at h1; exact absurd h1 (by simp)
    | some d =>
      rw [hc] at h1
      cases hd1 : decodeDigits l1 with
      | none => rw [hd1] at h1; exact absurd h1 (by simp)
      | some ds =>
        rw [hd1] at h1
        dsimp only at h1
        injection h1 with h1e
        subst h1e
        rw [List.cons_append]
        unfold decodeDigits
        rw [hc, ih ds hd1]
        rfl

theorem bs58Decode_encode (k : List Nat) (hlt : ∀ x ∈ k, x < 256) :
    bs58Decode (String.mk (bs58Encode k)) = some k := by
  have hds58 : ∀ d ∈ natDigitsBE 58 (digitsToNat 256 k), d < 58 := by
    intro d hd
    rw [natDigitsBE_eq 58 _ (by omega)] at hd
    exact Nat.digits_lt_base (by omega) (List.mem_reverse.mp hd)
  have hdec : decodeDigits (bs58Encode k) =
      some (List.replicate (k.takeWhile (fun d => d == 0)).length 0
        ++ natDigitsBE 58 (digitsToNat 256 k)) := by
    unfold bs58Encode
    exact decodeDigits_append _ _ _ _
      (decodeDigits_replicate_one _)
      (decodeDigits_map_getD _ hds58)
  have hdata : (String.mk (bs58Encode k)).data = bs58Encode k := rfl
  unfold bs58Decode
  rw [hdata, hdec]
  dsimp only
  congr 1
  rw [takeWhile_replicate_zero_append, takeWhile_natDigitsBE 58 _ (by omega),
    List.append_nil, List.length_replicate,
    digitsToNat_replicate_zero_append, digitsToNat_natDigitsBE 58 _ (by omega)]
  have hksplit : List.replicate (k.takeWhile (fun d => d == 0)).length 0
      ++ k.dropWhile (fun d => d == 0) = k := by
    rw [← takeWhile_zeros]
    exact List.takeWhile_append_dropWhile _ _
  have hval : digitsToNat 256 k =
      digitsToNat 256 (k.dropWhile (fun d => d == 0)) := by
    conv_lhs => rw [← hksplit]
    rw [digitsToNat_replicate_zero_append]
  have hmem : ∀ x ∈ k.dropWhile (fun d => d == 0), x < 256 := by
    intro x hx
    exact hlt x (List.Sublist.mem hx (List.dropWhile_sublist _))
  have hhead : (k.dropWhile (fun d => d == 0)).head? ≠ some 0 := by
    have hh := List.head?_dropWhile_not (fun d => d == 0) k
    intro hc
    rw [hc] at hh
    simp at hh
  rw [hval, natDigitsBE_digitsToNat 256 (by omega) _ hmem hhead]
  exact hksplit

/-- Claim C7: decoding the base58 encoding of any 32-byte sequence succeeds
and returns exactly that sequence — decode is a left inverse of the base58
encoding on 32-byte inputs. -/
theorem C7_decode_encode (k : List Nat) (hlen : k.length = 32)
    (hlt : ∀ x ∈ k, x < 256) :
    parse_pubkey (String.mk (bs58Encode k)) = .ok k := by
  unfold parse_pubkey
  rw [bs58Decode_encode k hlt]
  dsimp only
  rw [if_pos hlen]

/-- Witness for C7 at the all-zero 32-byte key, whose base58 encoding is
the string of thirty-two 1 characters. -/
theorem C7_decode_encode_witness :
    parse_pubkey (String.mk (bs58Encode (List.replicate 32 0))) =
      .ok (List.replicate 32 0) :=
  C7_decode_encode (List.replicate 32 0) (by decide) (by decide)
